import Mathlib

/-!
Verification of `extract_history.py`: a batch job that, for every weeknight
at 10pm US Eastern between June 1 and August 30 of a year, resolves the
Google-Drive revision of a source spreadsheet nearest the target instant,
reads a cell grid, and writes one archive document.

The embedding below translates the script's pure logic: proleptic-Gregorian
calendar arithmetic (Python `datetime`), US/Eastern localization (pytz),
the revision-selection algorithm `find_best_revision`, the date generator
`get_weeknight_dates`, the orchestrator accumulation loop, and the archive
formatting `append_to_destination`.  Network calls are modelled by explicit
`Except`-valued oracles passed in as arguments.
-/

/-- Gregorian leap-year test, as Python's `datetime`/`calendar` define it. -/
def isLeap (y : Nat) : Bool :=
  (y % 4 == 0 && y % 100 != 0) || y % 400 == 0

/-- Number of days in month `m` of year `y` (Python `calendar.monthrange`). -/
def daysInMonth (y m : Nat) : Nat :=
  if m = 2 then (if isLeap y then 29 else 28)
  else if m = 4 ∨ m = 6 ∨ m = 9 ∨ m = 11 then 30
  else 31

/-- 1 on leap years, 0 otherwise. -/
def leapDay (y : Nat) : Nat := if isLeap y then 1 else 0

/-- Days in the months of year `y` strictly before month `m`
(CPython's `_DAYS_BEFORE_MONTH` table with the leap adjustment). -/
def daysBeforeMonth (y m : Nat) : Nat :=
  match m with
  | 1 => 0
  | 2 => 31
  | 3 => 59 + leapDay y
  | 4 => 90 + leapDay y
  | 5 => 120 + leapDay y
  | 6 => 151 + leapDay y
  | 7 => 181 + leapDay y
  | 8 => 212 + leapDay y
  | 9 => 243 + leapDay y
  | 10 => 273 + leapDay y
  | 11 => 304 + leapDay y
  | 12 => 334 + leapDay y
  | _ => 0

/-- Ordinal of the date within its year (Jan 1 ↦ 1). -/
def dayOfYear (y m d : Nat) : Nat := daysBeforeMonth y m + d

/-- Days in the proleptic Gregorian calendar strictly before year `y`. -/
def daysBeforeYear (y : Nat) : Nat :=
  365 * (y - 1) + (y - 1) / 4 - (y - 1) / 100 + (y - 1) / 400

/-- Rata-die day number (0001-01-01 ↦ 1), Python `datetime.toordinal`. -/
def rataDie (y m d : Nat) : Nat := daysBeforeYear y + dayOfYear y m d

/-- Python `datetime.weekday()`: Monday ↦ 0 … Sunday ↦ 6. -/
def pyWeekday (y m d : Nat) : Nat := (rataDie y m d + 6) % 7

/-- Day in March of the second Sunday (US DST start day, 2007 rules). -/
def secondSundayMarch (y : Nat) : Nat :=
  1 + (13 - pyWeekday y 3 1) % 7 + 7

/-- Day in November of the first Sunday (US DST end day, 2007 rules). -/
def firstSundayNovember (y : Nat) : Nat :=
  1 + (13 - pyWeekday y 11 1) % 7

/-- Modelled from pytz `US/Eastern` (2007-onward rules): daylight saving is
in force from 2:00 on the second Sunday of March until 2:00 on the first
Sunday of November, at the given naive local time. -/
def isEasternDST (y m d h mi s : Nat) : Bool :=
  let t := dayOfYear y m d * 86400 + h * 3600 + mi * 60 + s
  let dstStart := dayOfYear y 3 (secondSundayMarch y) * 86400 + 7200
  let dstStop := dayOfYear y 11 (firstSundayNovember y) * 86400 + 7200
  dstStart ≤ t && t < dstStop

/-- UTC instant, in seconds since the proleptic-Gregorian epoch, of a UTC
calendar reading (used to denote the instants of ISO-8601 `Z` strings). -/
def utcInstant (y m d h mi s : Nat) : Int :=
  (rataDie y m d * 86400 + h * 3600 + mi * 60 + s : Nat)

/-- A timezone-aware datetime: local calendar fields plus the zone's fixed
UTC offset in minutes east of UTC (pytz `localize` attaches this). -/
structure AwareDT where
  year : Nat
  month : Nat
  day : Nat
  hour : Nat
  minute : Nat
  second : Nat
  utcOffsetMin : Int
deriving DecidableEq, Repr

/-- The instant denoted by an aware datetime, in UTC seconds
(`datetime.astimezone(pytz.UTC)` exposes exactly this value). -/
def AwareDT.utcSec (a : AwareDT) : Int :=
  utcInstant a.year a.month a.day a.hour a.minute a.second - 60 * a.utcOffsetMin

/-- `eastern.localize(naive)`: attach the US/Eastern offset in force at
that local time (EDT = -240 minutes, EST = -300 minutes). -/
def easternLocalize (y m d h mi s : Nat) : AwareDT :=
  ⟨y, m, d, h, mi, s, if isEasternDST y m d h mi s then -240 else -300⟩

/-- A naive (timezone-free) datetime, as used inside `get_weeknight_dates`. -/
structure NaiveDT where
  year : Nat
  month : Nat
  day : Nat
  hour : Nat
  minute : Nat
  second : Nat
deriving DecidableEq, Repr

/-- Python naive-datetime comparison: lexicographic on the fields. -/
def NaiveDT.le (a b : NaiveDT) : Bool :=
  if a.year ≠ b.year then decide (a.year < b.year)
  else if a.month ≠ b.month then decide (a.month < b.month)
  else if a.day ≠ b.day then decide (a.day < b.day)
  else if a.hour ≠ b.hour then decide (a.hour < b.hour)
  else if a.minute ≠ b.minute then decide (a.minute < b.minute)
  else decide (a.second ≤ b.second)

/-- `current_date += timedelta(days=1)`. -/
def NaiveDT.addDay (a : NaiveDT) : NaiveDT :=
  if a.day < daysInMonth a.year a.month then
    ⟨a.year, a.month, a.day + 1, a.hour, a.minute, a.second⟩
  else if a.month < 12 then
    ⟨a.year, a.month + 1, 1, a.hour, a.minute, a.second⟩
  else
    ⟨a.year + 1, 1, 1, a.hour, a.minute, a.second⟩

/-- The `while current_date <= end_date` loop of `get_weeknight_dates`
(lines 56-61): append the Eastern-localized date when its weekday is
Monday–Friday (`weekday() <= 4`), then advance one day.  `fuel` is an
upper bound on the iteration count; the loop runs at most 92 times. -/
def weeknightLoop (endDate : NaiveDT) : Nat → NaiveDT → List AwareDT
  | 0, _ => []
  | fuel + 1, current =>
    if NaiveDT.le current endDate then
      (if pyWeekday current.year current.month current.day ≤ 4 then
        [easternLocalize current.year current.month current.day
          current.hour current.minute current.second]
      else []) ++ weeknightLoop endDate fuel (NaiveDT.addDay current)
    else []

/-- `get_weeknight_dates(year)`: weeknight dates at 10pm ET between
June 1 and Aug 30 (lines 44-63). -/
def get_weeknight_dates (year : Nat) : List AwareDT :=
  weeknightLoop ⟨year, 8, 30, 23, 59, 59⟩ 400 ⟨year, 6, 1, 22, 0, 0⟩

/-- A Drive revision record: opaque identifier plus `modifiedTime`,
modelled as the UTC instant (seconds) its ISO-8601 string denotes. -/
structure Revision where
  id : String
  modifiedTime : Int
deriving DecidableEq, Repr

/-- One iteration of the first scan of `find_best_revision`
(lines 101-107): adopt `rev` when it is at-or-after the target and
strictly earlier than the current best (ties keep the current best). -/
def bestAfterStep (targetUtc : Int) (best : Option Revision) (rev : Revision) :
    Option Revision :=
  if targetUtc ≤ rev.modifiedTime then
    match best with
    | none => some rev
    | some b => if rev.modifiedTime < b.modifiedTime then some rev else some b
  else best

/-- The first scan over all fetched revisions (lines 100-107). -/
def bestAfterScan (targetUtc : Int) (revs : List Revision) : Option Revision :=
  revs.foldl (bestAfterStep targetUtc) none

/-- The fallback scan (lines 111-115): first revision at-or-before the
target in the reversed list. -/
def lastAtOrBefore (targetUtc : Int) : List Revision → Option Revision
  | [] => none
  | rev :: rest =>
    if rev.modifiedTime ≤ targetUtc then some rev else lastAtOrBefore targetUtc rest

/-- Selection core of `find_best_revision` (lines 93-122) on the fetched
revision list and UTC target. -/
def findBestRevisionCore (revs : List Revision) (targetUtc : Int) : Option String :=
  if revs.isEmpty then none
  else
    match bestAfterScan targetUtc revs with
    | some b => some b.id
    | none =>
      match lastAtOrBefore targetUtc revs.reverse with
      | some b => some b.id
      | none => none

/-- `find_best_revision` (lines 65-126): the paginated listing is modelled
as pages of revisions already fetched, or a transport error (`HttpError`);
the pages are concatenated and the target is converted to UTC. -/
def find_best_revision (fetched : Except String (List (List Revision)))
    (target_time : AwareDT) : Option String :=
  match fetched with
  | .error _ => none
  | .ok pages => findBestRevisionCore pages.flatten target_time.utcSec

/-- The first scan's loop invariant: over the processed prefix `p`, the
accumulator holds the earliest at-or-after revision, first-encountered on
ties (or `none` when no element of `p` qualifies). -/
def ArgminFirst (targetUtc : Int) (p : List Revision) : Option Revision → Prop
  | none => ∀ s ∈ p, s.modifiedTime < targetUtc
  | some r => ∃ l1 l2, p = l1 ++ r :: l2 ∧ targetUtc ≤ r.modifiedTime ∧
      (∀ s ∈ p, targetUtc ≤ s.modifiedTime → r.modifiedTime ≤ s.modifiedTime) ∧
      ∀ s ∈ l1, targetUtc ≤ s.modifiedTime → r.modifiedTime < s.modifiedTime

lemma argminFirst_step (t : Int) (p : List Revision) (acc : Option Revision)
    (h : ArgminFirst t p acc) (rev : Revision) :
    ArgminFirst t (p ++ [rev]) (bestAfterStep t acc rev) := by
  cases acc with
  | none =>
    simp only [ArgminFirst] at h
    by_cases hq : t ≤ rev.modifiedTime
    · simp only [bestAfterStep, if_pos hq, ArgminFirst]
      refine ⟨p, [], rfl, hq, ?_, ?_⟩
      · intro s hs hts
        rcases List.mem_append.mp hs with hs | hs
        · exact absurd hts (not_le.mpr (h s hs))
        · simp only [List.mem_singleton] at hs
          subst hs
          exact le_refl _
      · intro s hs hts
        exact absurd hts (not_le.mpr (h s hs))
    · simp only [bestAfterStep, if_neg hq, ArgminFirst]
      intro s hs
      rcases List.mem_append.mp hs with hs | hs
      · exact h s hs
      · simp only [List.mem_singleton] at hs
        subst hs
        exact lt_of_not_le hq
  | some b =>
    obtain ⟨l1, l2, hp, hb, hmin, hfirst⟩ := h
    by_cases hq : t ≤ rev.modifiedTime
    · by_cases hlt : rev.modifiedTime < b.modifiedTime
      · simp only [bestAfterStep, if_pos hq, if_pos hlt, ArgminFirst]
        refine ⟨p, [], rfl, hq, ?_, ?_⟩
        · intro s hs hts
          rcases List.mem_append.mp hs with hs | hs
          · exact le_of_lt (lt_of_lt_of_le hlt (hmin s hs hts))
          · simp only [List.mem_singleton] at hs
            subst hs
            exact le_refl _
        · intro s hs hts
          exact lt_of_lt_of_le hlt (hmin s hs hts)
      · simp only [bestAfterStep, if_pos hq, if_neg hlt, ArgminFirst]
        refine ⟨l1, l2 ++ [rev], by rw [hp]; simp, hb, ?_, hfirst⟩
        intro s hs hts
        rcases List.mem_append.mp hs with hs | hs
        · exact hmin s hs hts
        · simp only [List.mem_singleton] at hs
          subst hs
          exact not_lt.mp hlt
    · simp only [bestAfterStep, if_neg hq, ArgminFirst]
      refine ⟨l1, l2 ++ [rev], by rw [hp]; simp, hb, ?_, hfirst⟩
      intro s hs hts
      rcases List.mem_append.mp hs with hs | hs
      · exact hmin s hs hts
      · simp only [List.mem_singleton] at hs
        subst hs
        exact absurd hts hq

lemma argminFirst_foldl (t : Int) :
    ∀ (l p : List Revision) (acc : Option Revision), ArgminFirst t p acc →
      ArgminFirst t (p ++ l) (l.foldl (bestAfterStep t) acc)
  | [], p, acc, h => by simpa using h
  | rev :: rest, p, acc, h => by
    have h2 := argminFirst_foldl t rest (p ++ [rev]) (bestAfterStep t acc rev)
      (argminFirst_step t p acc h rev)
    simpa [List.append_assoc] using h2

lemma bestAfterScan_spec (t : Int) (revs : List Revision) :
    ArgminFirst t revs (bestAfterScan t revs) := by
  have h := argminFirst_foldl t revs [] none (by simp [ArgminFirst])
  simpa [bestAfterScan] using h

lemma pairwise_le_getLast :
    ∀ (l : List Revision) (h : l ≠ []),
      l.Pairwise (fun a b => a.modifiedTime ≤ b.modifiedTime) →
      ∀ r ∈ l, r.modifiedTime ≤ (l.getLast h).modifiedTime
  | [x], _, _, r, hr => by
    simp only [List.mem_singleton] at hr
    subst hr
    simp [List.getLast]
  | x :: y :: rest, _, hs, r, hr => by
    rw [List.pairwise_cons] at hs
    obtain ⟨hx, htl⟩ := hs
    have hne : (y :: rest) ≠ [] := by simp
    have hcons : (x :: y :: rest).getLast (by simp) = (y :: rest).getLast hne :=
      List.getLast_cons hne
    rw [hcons]
    rcases List.mem_cons.mp hr with hr | hr
    · subst hr
      exact hx _ (List.getLast_mem hne)
    · exact pairwise_le_getLast (y :: rest) hne htl r hr

lemma findBestRevisionCore_ne_none (revs : List Revision) (t : Int) (h : revs ≠ []) :
    findBestRevisionCore revs t ≠ none := by
  have hne : revs.isEmpty = false := by
    cases revs
    · exact absurd rfl h
    · rfl
  cases hscan : bestAfterScan t revs with
  | some b => simp [findBestRevisionCore, hne, hscan]
  | none =>
    have hspec := bestAfterScan_spec t revs
    rw [hscan] at hspec
    simp only [ArgminFirst] at hspec
    obtain ⟨r, rest, hr⟩ : ∃ r rest, revs.reverse = r :: rest := by
      cases hrev : revs.reverse with
      | nil => exact absurd (List.reverse_eq_nil_iff.mp hrev) h
      | cons r rest => exact ⟨r, rest, rfl⟩
    have hrmem : r ∈ revs := by
      have hm : r ∈ revs.reverse := by rw [hr]; simp
      simpa using hm
    have hlast : lastAtOrBefore t revs.reverse = some r := by
      rw [hr]
      simp only [lastAtOrBefore]
      rw [if_pos (le_of_lt (hspec r hrmem))]
    simp [findBestRevisionCore, hne, hscan, hlast]

/-- C1: whenever some fetched revision is at or after the target instant
(compared in UTC), the resolver's selection returns the identifier of the
earliest such revision, and among entries sharing that exact earliest
at-or-after timestamp the first-encountered in iteration order wins. -/
theorem resolver_earliest_at_or_after (revs : List Revision) (t : Int)
    (h : ∃ r ∈ revs, t ≤ r.modifiedTime) :
    ∃ l1 r l2, revs = l1 ++ r :: l2 ∧
      findBestRevisionCore revs t = some r.id ∧
      t ≤ r.modifiedTime ∧
      (∀ s ∈ revs, t ≤ s.modifiedTime → r.modifiedTime ≤ s.modifiedTime) ∧
      ∀ s ∈ l1, t ≤ s.modifiedTime → r.modifiedTime < s.modifiedTime := by
  obtain ⟨r0, hr0, ht0⟩ := h
  have hspec := bestAfterScan_spec t revs
  cases hscan : bestAfterScan t revs with
  | none =>
    rw [hscan] at hspec
    simp only [ArgminFirst] at hspec
    exact absurd ht0 (not_le.mpr (hspec r0 hr0))
  | some b =>
    rw [hscan] at hspec
    obtain ⟨l1, l2, hp, hb, hmin, hfirst⟩ := hspec
    have hne : revs.isEmpty = false := by
      cases revs
      · cases hr0
      · rfl
    refine ⟨l1, b, l2, hp, ?_, hb, hmin, hfirst⟩
    simp [findBestRevisionCore, hne, hscan]

/-- Witness for C1 at a concrete input with a timestamp tie: revisions at
times 10, 10, 5 and target 7; the first-encountered earliest entry wins. -/
theorem resolver_earliest_at_or_after_witness :
    ∃ l1 r l2, ([⟨"a", 10⟩, ⟨"b", 10⟩, ⟨"c", 5⟩] : List Revision) = l1 ++ r :: l2 ∧
      findBestRevisionCore [⟨"a", 10⟩, ⟨"b", 10⟩, ⟨"c", 5⟩] 7 = some r.id ∧
      (7 : Int) ≤ r.modifiedTime ∧
      (∀ s ∈ ([⟨"a", 10⟩, ⟨"b", 10⟩, ⟨"c", 5⟩] : List Revision),
        7 ≤ s.modifiedTime → r.modifiedTime ≤ s.modifiedTime) ∧
      ∀ s ∈ l1, 7 ≤ s.modifiedTime → r.modifiedTime < s.modifiedTime :=
  resolver_earliest_at_or_after [⟨"a", 10⟩, ⟨"b", 10⟩, ⟨"c", 5⟩] 7
    ⟨⟨"a", 10⟩, by simp, by norm_num⟩

/-- C2 counterexample: on the list [("a",5), ("b",3)] with target 10 (all
entries strictly before the target), the code returns "b", the last entry
in iteration order, although the latest (most recent) entry is ("a",5). -/
theorem resolver_latest_counterexample :
    findBestRevisionCore [⟨"a", 5⟩, ⟨"b", 3⟩] 10 = some "b" ∧
    (∀ r ∈ ([⟨"a", 5⟩, ⟨"b", 3⟩] : List Revision), r.modifiedTime < 10) ∧
    (⟨"a", 5⟩ : Revision) ∈ ([⟨"a", 5⟩, ⟨"b", 3⟩] : List Revision) ∧
    (∀ r ∈ ([⟨"a", 5⟩, ⟨"b", 3⟩] : List Revision), r.modifiedTime ≤ 5) ∧
    ¬ findBestRevisionCore [⟨"a", 5⟩, ⟨"b", 3⟩] 10 = some "a" := by decide

/-- C2 (amended): for a nonempty revision list in chronological
(non-decreasing modification time) order whose entries are all strictly
before the target, the resolver returns the last entry's identifier, and
that entry carries the maximal (most recent) modification time. -/
theorem resolver_fallback_latest (revs : List Revision) (t : Int) (hne : revs ≠ [])
    (hchron : revs.Pairwise (fun a b => a.modifiedTime ≤ b.modifiedTime))
    (hall : ∀ r ∈ revs, r.modifiedTime < t) :
    findBestRevisionCore revs t = some (revs.getLast hne).id ∧
    ∀ r ∈ revs, r.modifiedTime ≤ (revs.getLast hne).modifiedTime := by
  constructor
  · have hscan : bestAfterScan t revs = none := by
      cases hscan : bestAfterScan t revs with
      | none => rfl
      | some b =>
        have hspec := bestAfterScan_spec t revs
        rw [hscan] at hspec
        obtain ⟨l1, l2, hp, hb, _, _⟩ := hspec
        have hbmem : b ∈ revs := by rw [hp]; simp
        exact absurd hb (not_le.mpr (hall b hbmem))
    have hrev : revs.reverse = revs.getLast hne :: revs.dropLast.reverse := by
      conv_lhs => rw [← List.dropLast_append_getLast hne]
      rw [List.reverse_append]
      simp
    have hlast : lastAtOrBefore t revs.reverse = some (revs.getLast hne) := by
      rw [hrev]
      simp only [lastAtOrBefore]
      rw [if_pos (le_of_lt (hall _ (List.getLast_mem hne)))]
    have hne2 : revs.isEmpty = false := by
      cases revs
      · exact absurd rfl hne
      · rfl
    simp [findBestRevisionCore, hne2, hscan, hlast]
  · exact pairwise_le_getLast revs hne hchron

/-- Witness for the amended C2 at a concrete chronological input. -/
theorem resolver_fallback_latest_witness :
    findBestRevisionCore [⟨"a", 3⟩, ⟨"b", 5⟩] 10 =
      some ((([⟨"a", 3⟩, ⟨"b", 5⟩] : List Revision).getLast (by simp)).id) ∧
    ∀ r ∈ ([⟨"a", 3⟩, ⟨"b", 5⟩] : List Revision),
      r.modifiedTime ≤ (([⟨"a", 3⟩, ⟨"b", 5⟩] : List Revision).getLast (by simp)).modifiedTime :=
  resolver_fallback_latest [⟨"a", 3⟩, ⟨"b", 5⟩] 10 (by simp) (by decide) (by decide)

/-- C8: the resolver returns none exactly when the revision listing hit a
transport error or the fetched revision list is empty; any non-empty,
error-free fetch yields some revision's identifier. -/
theorem resolver_none_iff (fetched : Except String (List (List Revision)))
    (target : AwareDT) :
    find_best_revision fetched target = none ↔
      (∃ e, fetched = Except.error e) ∨
      (∃ pages, fetched = Except.ok pages ∧ pages.flatten = []) := by
  cases fetched with
  | error e => simp [find_best_revision]
  | ok pages =>
    simp only [find_best_revision]
    constructor
    · intro h
      right
      refine ⟨pages, rfl, ?_⟩
      by_contra hflat
      exact findBestRevisionCore_ne_none pages.flatten target.utcSec hflat h
    · rintro (⟨e, he⟩ | ⟨p, hp, hflat⟩)
      · cases he
      · cases hp
        rw [hflat]
        rfl

/-- C5: on revisions at 2024-06-03T01:55Z and 2024-06-03T02:05Z, the
target 2024-06-02 22:00 US Eastern (= 2024-06-03T02:00Z) selects the
02:05Z revision as first at-or-after, and the target 2024-06-03 00:00 US
Eastern (= 2024-06-03T04:00Z) also selects the 02:05Z revision via the
fallback rule. -/
theorem resolver_concrete_example :
    (easternLocalize 2024 6 2 22 0 0).utcSec = utcInstant 2024 6 3 2 0 0 ∧
    (easternLocalize 2024 6 3 0 0 0).utcSec = utcInstant 2024 6 3 4 0 0 ∧
    find_best_revision
      (Except.ok [[⟨"rev155", utcInstant 2024 6 3 1 55 0⟩,
                   ⟨"rev205", utcInstant 2024 6 3 2 5 0⟩]])
      (easternLocalize 2024 6 2 22 0 0) = some "rev205" ∧
    find_best_revision
      (Except.ok [[⟨"rev155", utcInstant 2024 6 3 1 55 0⟩,
                   ⟨"rev205", utcInstant 2024 6 3 2 5 0⟩]])
      (easternLocalize 2024 6 3 0 0 0) = some "rev205" :=
  ⟨by decide, by decide, by decide, by decide⟩

/-- Month (6, 7 or 8) of the date `k` days after June 1. -/
def monthOfOffset (k : Nat) : Nat :=
  if k < 30 then 6 else if k < 61 then 7 else 8

/-- Day of month of the date `k` days after June 1. -/
def dayOfOffset (k : Nat) : Nat :=
  if k < 30 then k + 1 else if k < 61 then k - 29 else k - 60

/-- The naive 10pm datetime `k` days after June 1 of year `y`. -/
def juneDT (y k : Nat) : NaiveDT :=
  ⟨y, monthOfOffset k, dayOfOffset k, 22, 0, 0⟩

/-- The localized 10pm entry for day-offset `k`, when its weekday is
Monday-Friday. -/
def weeknightPick (y k : Nat) : Option AwareDT :=
  if pyWeekday y (monthOfOffset k) (dayOfOffset k) ≤ 4 then
    some (easternLocalize y (monthOfOffset k) (dayOfOffset k) 22 0 0)
  else none

/-- Spec-side description of the Date Generator: the 91 calendar dates
June 1 - Aug 30, filtered to weekdays Monday-Friday, each localized at
22:00:00 US Eastern. -/
def specWeeknights (y : Nat) : List AwareDT :=
  (List.range 91).filterMap (weeknightPick y)

/-- The calendar dates from June 1 through August 30. -/
def inJuneAug (m d : Nat) : Prop :=
  1 ≤ d ∧ ((m = 6 ∧ d ≤ 30) ∨ (m = 7 ∧ d ≤ 31) ∨ (m = 8 ∧ d ≤ 30))

lemma leapDay_le_one (y : Nat) : leapDay y ≤ 1 := by
  unfold leapDay
  split_ifs <;> omega

lemma addDay_juneDT (y k : Nat) (hk : k < 91) :
    (juneDT y k).addDay = juneDT y (k + 1) := by
  have h6 : daysInMonth y 6 = 30 := rfl
  have h7 : daysInMonth y 7 = 31 := rfl
  have h8 : daysInMonth y 8 = 31 := rfl
  unfold juneDT NaiveDT.addDay monthOfOffset dayOfOffset
  simp only
  split_ifs <;> simp_all [NaiveDT.mk.injEq] <;> omega

lemma guard_true_juneDT (y k : Nat) (hk : k < 91) :
    NaiveDT.le (juneDT y k) ⟨y, 8, 30, 23, 59, 59⟩ = true := by
  unfold NaiveDT.le juneDT monthOfOffset dayOfOffset
  simp only
  split_ifs <;> simp_all
  omega

lemma guard_false_juneDT (y : Nat) :
    NaiveDT.le (juneDT y 91) ⟨y, 8, 30, 23, 59, 59⟩ = false := by
  unfold NaiveDT.le juneDT monthOfOffset dayOfOffset
  simp

lemma weeknightLoop_run (y : Nat) :
    ∀ (n k : Nat), k ≤ 91 → 92 - k ≤ n →
      weeknightLoop ⟨y, 8, 30, 23, 59, 59⟩ n (juneDT y k) =
        (List.range' k (91 - k)).filterMap (weeknightPick y) := by
  intro n
  induction n with
  | zero => intro k hk hn; omega
  | succ n ih =>
    intro k hk hn
    by_cases h91 : k = 91
    · subst h91
      simp [weeknightLoop, guard_false_juneDT y]
    · have hk' : k < 91 := by omega
      have hrange : 91 - k = (91 - (k + 1)) + 1 := by omega
      rw [hrange, List.range'_succ]
      simp only [weeknightLoop, guard_true_juneDT y k hk', if_true,
        addDay_juneDT y k hk', ih (k + 1) (by omega) (by omega),
        List.filterMap_cons]
      by_cases hwd : pyWeekday y (monthOfOffset k) (dayOfOffset k) ≤ 4 <;>
        simp [juneDT, weeknightPick, hwd]

lemma get_weeknight_dates_eq (y : Nat) :
    get_weeknight_dates y = specWeeknights y := by
  have h := weeknightLoop_run y 400 0 (by omega) (by omega)
  have hj : juneDT y 0 = ⟨y, 6, 1, 22, 0, 0⟩ := rfl
  rw [get_weeknight_dates, ← hj, h, specWeeknights, List.range_eq_range']

lemma dayOfYear_bounds (y m d : Nat) (h : inJuneAug m d) :
    152 ≤ dayOfYear y m d ∧ dayOfYear y m d ≤ 243 := by
  have hl := leapDay_le_one y
  obtain ⟨hd, hm⟩ := h
  rcases hm with ⟨hm, hd2⟩ | ⟨hm, hd2⟩ | ⟨hm, hd2⟩ <;> subst hm <;>
    simp [dayOfYear, daysBeforeMonth] <;> omega

lemma isEasternDST_summer (y m d : Nat) (h : inJuneAug m d) :
    isEasternDST y m d 22 0 0 = true := by
  have hl := leapDay_le_one y
  have hb := dayOfYear_bounds y m d h
  have hssm : secondSundayMarch y ≤ 14 := by
    unfold secondSundayMarch
    have hm7 : (13 - pyWeekday y 3 1) % 7 < 7 := Nat.mod_lt _ (by omega)
    omega
  have hfsn : 1 ≤ firstSundayNovember y := by
    unfold firstSundayNovember
    omega
  have h3 : dayOfYear y 3 (secondSundayMarch y) ≤ 74 := by
    simp only [dayOfYear, daysBeforeMonth]
    omega
  have h11 : 305 ≤ dayOfYear y 11 (firstSundayNovember y) := by
    simp only [dayOfYear, daysBeforeMonth]
    omega
  simp only [isEasternDST, Bool.and_eq_true, decide_eq_true_eq]
  refine ⟨by omega, by omega⟩

lemma offset_inJuneAug (k : Nat) (hk : k < 91) :
    inJuneAug (monthOfOffset k) (dayOfOffset k) := by
  unfold inJuneAug monthOfOffset dayOfOffset
  split_ifs <;> omega

lemma dayOfYear_offset (y k : Nat) (hk : k < 91) :
    dayOfYear y (monthOfOffset k) (dayOfOffset k) = 152 + leapDay y + k := by
  unfold dayOfYear monthOfOffset dayOfOffset
  split_ifs <;> simp [daysBeforeMonth] <;> omega

lemma utcSec_offset (y k : Nat) (hk : k < 91) :
    (easternLocalize y (monthOfOffset k) (dayOfOffset k) 22 0 0).utcSec =
      (((daysBeforeYear y + 152 + leapDay y + k) * 86400 + 93600 : Nat) : Int) := by
  have hdst := isEasternDST_summer y _ _ (offset_inJuneAug k hk)
  simp only [easternLocalize, hdst, if_true, AwareDT.utcSec, utcInstant, rataDie]
  rw [dayOfYear_offset y k hk]
  push_cast
  ring

lemma weeknightPick_eq_some (y k : Nat) (a : AwareDT) :
    weeknightPick y k = some a ↔
      pyWeekday y (monthOfOffset k) (dayOfOffset k) ≤ 4 ∧
      a = easternLocalize y (monthOfOffset k) (dayOfOffset k) 22 0 0 := by
  unfold weeknightPick
  split_ifs with h <;> simp [h, eq_comm]

lemma specWeeknights_pairwise (y : Nat) :
    List.Pairwise (fun a b => a.utcSec < b.utcSec) (specWeeknights y) := by
  rw [specWeeknights, List.pairwise_filterMap]
  refine (List.pairwise_lt_range 91).imp_of_mem ?_
  intro a b ha hb hab
  intro x hx x2 hx2
  have ha' : a < 91 := List.mem_range.mp ha
  have hb' : b < 91 := List.mem_range.mp hb
  rw [Option.mem_def, weeknightPick_eq_some] at hx hx2
  obtain ⟨-, rfl⟩ := hx
  obtain ⟨-, rfl⟩ := hx2
  rw [utcSec_offset y a ha', utcSec_offset y b hb']
  have hlt : (daysBeforeYear y + 152 + leapDay y + a) * 86400 + 93600 <
      (daysBeforeYear y + 152 + leapDay y + b) * 86400 + 93600 := by omega
  exact_mod_cast hlt

lemma mem_specWeeknights (y : Nat) (a : AwareDT) :
    a ∈ specWeeknights y ↔ ∃ k < 91,
      pyWeekday y (monthOfOffset k) (dayOfOffset k) ≤ 4 ∧
      a = easternLocalize y (monthOfOffset k) (dayOfOffset k) 22 0 0 := by
  rw [specWeeknights, List.mem_filterMap]
  constructor
  · rintro ⟨k, hk, hpick⟩
    rw [weeknightPick_eq_some] at hpick
    exact ⟨k, List.mem_range.mp hk, hpick.1, hpick.2⟩
  · rintro ⟨k, hk, hwd, rfl⟩
    exact ⟨k, List.mem_range.mpr hk, (weeknightPick_eq_some y k _).mpr ⟨hwd, rfl⟩⟩

lemma inJuneAug_offset (m d : Nat) (h : inJuneAug m d) :
    ∃ k < 91, monthOfOffset k = m ∧ dayOfOffset k = d := by
  obtain ⟨hd, hm⟩ := h
  rcases hm with ⟨hm, hd2⟩ | ⟨hm, hd2⟩ | ⟨hm, hd2⟩ <;> subst hm
  · refine ⟨d - 1, by omega, ?_, ?_⟩
    · unfold monthOfOffset
      rw [if_pos (by omega)]
    · unfold dayOfOffset
      rw [if_pos (by omega)]
      omega
  · refine ⟨d + 29, by omega, ?_, ?_⟩
    · unfold monthOfOffset
      rw [if_neg (by omega), if_pos (by omega)]
    · unfold dayOfOffset
      rw [if_neg (by omega), if_pos (by omega)]
      omega
  · refine ⟨d + 60, by omega, ?_, ?_⟩
    · unfold monthOfOffset
      rw [if_neg (by omega), if_neg (by omega)]
    · unfold dayOfOffset
      rw [if_neg (by omega), if_neg (by omega)]
      omega

/-- C4: for every year, `get_weeknight_dates` returns exactly the
chronologically ordered, duplicate-free sequence of the calendar dates
June 1 through August 30 whose weekday is Monday-Friday, each as a
timezone-aware instant at 22:00:00 US Eastern local time (daylight saving
in force throughout the range), and the instants are strictly increasing. -/
theorem dateGen_spec (y : Nat) :
    get_weeknight_dates y = specWeeknights y ∧
    List.Pairwise (fun a b => a.utcSec < b.utcSec) (get_weeknight_dates y) ∧
    (∀ a ∈ get_weeknight_dates y,
      a.year = y ∧ inJuneAug a.month a.day ∧ pyWeekday y a.month a.day ≤ 4 ∧
      a.hour = 22 ∧ a.minute = 0 ∧ a.second = 0 ∧ a.utcOffsetMin = -240 ∧
      a = easternLocalize y a.month a.day 22 0 0) ∧
    ∀ m d, inJuneAug m d → pyWeekday y m d ≤ 4 →
      easternLocalize y m d 22 0 0 ∈ get_weeknight_dates y := by
  have heq := get_weeknight_dates_eq y
  refine ⟨heq, by rw [heq]; exact specWeeknights_pairwise y, ?_, ?_⟩
  · intro a ha
    rw [heq] at ha
    obtain ⟨k, hk, hwd, rfl⟩ := (mem_specWeeknights y a).mp ha
    have hdst := isEasternDST_summer y _ _ (offset_inJuneAug k hk)
    exact ⟨rfl, offset_inJuneAug k hk, hwd, rfl, rfl, rfl,
      by simp [easternLocalize, hdst], rfl⟩
  · intro m d hmd hwd
    rw [heq]
    obtain ⟨k, hk, hm, hd⟩ := inJuneAug_offset m d hmd
    refine (mem_specWeeknights y _).mpr ⟨k, hk, ?_, ?_⟩
    · rw [hm, hd]
      exact hwd
    · rw [hm, hd]

/-- A grid of cell values, as the Sheets values API returns. -/
abbrev Grid := List (List String)

/-- Source spreadsheet identifier (line 11). -/
def SOURCE_SPREADSHEET_ID : String := "1zqHfqLxDgAbCf6E8-sogvZrefMTHxXe9XPiSW8_dVvg"

/-- Source tab name (line 12). -/
def SOURCE_SHEET_NAME : String := "Edit"

/-- `read_sheet_data` (lines 165-178): a successful response may carry a
values grid (`result.get` with default `[]`); a transport error
(`HttpError`) is caught, logged and yields `[]`.  The remote service is
modelled as a function from (spreadsheet id, range) to an outcome. -/
def read_sheet_data (api : String → String → Except String (Option Grid))
    (spreadsheet_id range_name : String) : Grid :=
  match api spreadsheet_id range_name with
  | .ok (some values) => values
  | .ok none => []
  | .error _ => []

/-- The per-date snapshot stored by the orchestrator (lines 273-290): when
a revision identifier was resolved, read the current live source range —
the read request never mentions the revision identifier — else store
`[]`. -/
def storedGrid (api : String → String → Except String (Option Grid))
    (revision_id : Option String) : Grid :=
  match revision_id with
  | some _ => read_sheet_data api SOURCE_SPREADSHEET_ID (SOURCE_SHEET_NAME ++ "!A:L")
  | none => []

/-- C3: over the same live document state, any two non-none resolved
revision identifiers produce the identical stored grid: the snapshot read
ignores which revision was resolved and reads the current live data. -/
theorem snapshot_ignores_revision
    (api : String → String → Except String (Option Grid))
    (r1 r2 : Option String) (h1 : r1.isSome) (h2 : r2.isSome) :
    storedGrid api r1 = storedGrid api r2 := by
  cases r1 with
  | none => simp at h1
  | some a =>
    cases r2 with
    | none => simp at h2
    | some b => rfl

/-- Witness for C3 at two concrete distinct revision identifiers. -/
theorem snapshot_ignores_revision_witness :
    (some "revA" : Option String).isSome ∧ (some "revB" : Option String).isSome ∧
    storedGrid (fun _ _ => Except.ok (some [["x"]])) (some "revA") =
      storedGrid (fun _ _ => Except.ok (some [["x"]])) (some "revB") :=
  ⟨rfl, rfl, snapshot_ignores_revision (fun _ _ => Except.ok (some [["x"]]))
    (some "revA") (some "revB") rfl rfl⟩

/-- The orchestrator's accumulation loop (lines 264-293): for each target
date, resolve a revision (`resolve` models `find_best_revision`'s result
at that date), and when one resolved, read and store the grid (`[]` when
the read was empty); dates with no revision store `[]` as well.  The
Python dict is modelled as the association list in insertion order. -/
def mainLoopAccum (resolve : AwareDT → Option String) (read : AwareDT → Grid)
    (target_dates : List AwareDT) : List (AwareDT × Grid) :=
  target_dates.map (fun date =>
    match resolve date with
    | some _ => if (read date).isEmpty then (date, ([] : Grid)) else (date, read date)
    | none => (date, ([] : Grid)))

lemma mainLoopAccum_keys (resolve : AwareDT → Option String) (read : AwareDT → Grid)
    (dates : List AwareDT) :
    (mainLoopAccum resolve read dates).map Prod.fst = dates := by
  induction dates with
  | nil => rfl
  | cons d rest ih =>
    simp only [mainLoopAccum, List.map_cons, List.cons.injEq] at ih ⊢
    refine ⟨?_, ih⟩
    cases resolve d
    · rfl
    · by_cases h : (read d).isEmpty <;> simp [h]

lemma mainLoopAccum_empty_mem (resolve : AwareDT → Option String)
    (read : AwareDT → Grid) (dates : List AwareDT) (d : AwareDT) (hd : d ∈ dates)
    (hcond : resolve d = none ∨ read d = []) :
    (d, ([] : Grid)) ∈ mainLoopAccum resolve read dates := by
  rw [mainLoopAccum, List.mem_map]
  refine ⟨d, hd, ?_⟩
  rcases hcond with h | h
  · rw [h]
  · cases hr : resolve d
    · rfl
    · simp [h]

lemma get_weeknight_dates_nodup (y : Nat) : (get_weeknight_dates y).Nodup := by
  have hp : List.Pairwise (fun a b : AwareDT => a.utcSec < b.utcSec)
      (get_weeknight_dates y) := by
    rw [get_weeknight_dates_eq]
    exact specWeeknights_pairwise y
  exact hp.imp (fun hab => by rintro rfl; exact absurd hab (lt_irrefl _))

/-- C6: after the orchestrator's loop, the accumulator has exactly one
entry per generated target instant — its key list is exactly the
generated date list, duplicate-free — and a date whose resolve step
returned none or whose read step returned no data has the explicit empty
grid as its entry (present, not absent). -/
theorem accumulator_total (y : Nat) (resolve : AwareDT → Option String)
    (read : AwareDT → Grid) :
    ((mainLoopAccum resolve read (get_weeknight_dates y)).map Prod.fst =
      get_weeknight_dates y) ∧
    ((mainLoopAccum resolve read (get_weeknight_dates y)).map Prod.fst).Nodup ∧
    ∀ d ∈ get_weeknight_dates y, (resolve d = none ∨ read d = []) →
      (d, ([] : Grid)) ∈ mainLoopAccum resolve read (get_weeknight_dates y) := by
  refine ⟨mainLoopAccum_keys resolve read _, ?_, ?_⟩
  · rw [mainLoopAccum_keys]
    exact get_weeknight_dates_nodup y
  · intro d hd hcond
    exact mainLoopAccum_empty_mem resolve read _ d hd hcond

/-- Witness for C6 at year 2024 with a resolver that always fails: the
Monday June 3 2024 entry is present with the explicit empty grid. -/
theorem accumulator_total_witness :
    ((mainLoopAccum (fun _ => none) (fun _ => []) (get_weeknight_dates 2024)).map
      Prod.fst = get_weeknight_dates 2024) ∧
    (easternLocalize 2024 6 3 22 0 0, ([] : Grid)) ∈
      mainLoopAccum (fun _ => none) (fun _ => []) (get_weeknight_dates 2024) := by
  have h := accumulator_total 2024 (fun _ => none) (fun _ => [])
  exact ⟨h.1, h.2.2 _ (by decide) (Or.inl rfl)⟩

/-- strftime %A: full weekday name (Python weekday number, Monday = 0). -/
def weekdayName (w : Nat) : String :=
  match w with
  | 0 => "Monday"
  | 1 => "Tuesday"
  | 2 => "Wednesday"
  | 3 => "Thursday"
  | 4 => "Friday"
  | 5 => "Saturday"
  | _ => "Sunday"

/-- strftime %B: full month name. -/
def monthName (m : Nat) : String :=
  match m with
  | 1 => "January"
  | 2 => "February"
  | 3 => "March"
  | 4 => "April"
  | 5 => "May"
  | 6 => "June"
  | 7 => "July"
  | 8 => "August"
  | 9 => "September"
  | 10 => "October"
  | 11 => "November"
  | _ => "December"

/-- strftime %d: zero-padded day of month. -/
def pad2 (n : Nat) : String :=
  if n < 10 then "0" ++ toString n else toString n

/-- The per-date header text, strftime format used at line 203. -/
def fmtDateHeader (a : AwareDT) : String :=
  weekdayName (pyWeekday a.year a.month a.day) ++ ", " ++ monthName a.month ++
    " " ++ pad2 a.day ++ ", " ++ toString a.year ++ " at 10:00 PM ET"

/-- The four banner rows of the archive (lines 195-198); the generated-at
text models the datetime.now() stamp. -/
def bannerRows (generatedAt : String) : Grid :=
  [["Historical Data Extract - Generated " ++ generatedAt],
   ["10pm ET Snapshots - Weeknights (Mon-Fri) June 1 - August 30"],
   [String.mk (List.replicate 50 '=')],
   [""]]

/-- The rows of one date's section (lines 201-216): header, blank, the
snapshot rows verbatim or one no-data marker, blank, separator, blank. -/
def dateSection (p : AwareDT × Grid) : Grid :=
  [["📅 " ++ fmtDateHeader p.1], [""]] ++
    (if p.2.isEmpty then [["[No data found for this date]"]] else p.2) ++
    [[""], [String.mk (List.replicate 50 '-')], [""]]

/-- sorted(all_data.items()) at line 201: Python sorts the (date, grid)
pairs; the date keys of the dict are distinct aware datetimes (equal iff
they denote the same instant), so this is ordering by UTC instant. -/
def sortByDate (all_data : List (AwareDT × Grid)) : List (AwareDT × Grid) :=
  all_data.mergeSort (fun p q => decide (p.1.utcSec ≤ q.1.utcSec))

/-- The full row matrix built by `append_to_destination` (lines 192-216). -/
def buildAllValues (generatedAt : String) (all_data : List (AwareDT × Grid)) : Grid :=
  bannerRows generatedAt ++ (sortByDate all_data).flatMap dateSection

/-- Events of the effectful tail of `append_to_destination`: the value of
each remote call as it executes. -/
inductive ApiEvent
  | cleared
  | clearFailed (e : String)
  | updated (values : Grid)
  | updateFailed (e : String)
deriving DecidableEq, Repr

/-- The effectful tail of `append_to_destination` (lines 218-243): the
destination clear runs inside try/except pass — its failure is swallowed
and execution continues — then the bulk update of the built rows runs
inside try/except that only logs.  The outcome of each remote call is
supplied as an `Except` value; the function returns the event trace. -/
def append_to_destination (generatedAt : String)
    (clearResult : Except String Unit) (updateResult : Except String Unit)
    (all_data : List (AwareDT × Grid)) : List ApiEvent :=
  let all_values := buildAllValues generatedAt all_data
  (match clearResult with
   | .ok _ => [ApiEvent.cleared]
   | .error e => [ApiEvent.clearFailed e]) ++
  (match updateResult with
   | .ok _ => [ApiEvent.updated all_values]
   | .error e => [ApiEvent.updateFailed e])

lemma sortByDate_sorted (l : List (AwareDT × Grid)) :
    List.Pairwise (fun p q : AwareDT × Grid => p.1.utcSec ≤ q.1.utcSec)
      (sortByDate l) := by
  have h : (sortByDate l).Pairwise
      (fun p q : AwareDT × Grid => decide (p.1.utcSec ≤ q.1.utcSec) = true) := by
    apply List.sorted_mergeSort
    · intro a b c h1 h2
      simp only [decide_eq_true_eq] at h1 h2 ⊢
      omega
    · intro a b
      by_cases hab : a.1.utcSec ≤ b.1.utcSec <;> simp [hab]
      omega
  exact h.imp (fun hab => by simpa using hab)

/-- C7: the archive writer's output is invariant under permutation of the
accumulator: two association lists holding the same date-to-rows pairs in
any order (with distinct date keys, as Python dict keys are) produce the
identical row matrix, because the writer sorts by date before formatting. -/
theorem writer_order_independent (generatedAt : String)
    (l1 l2 : List (AwareDT × Grid)) (hperm : List.Perm l1 l2)
    (hkeys : (l1.map (fun p => p.1.utcSec)).Nodup) :
    buildAllValues generatedAt l1 = buildAllValues generatedAt l2 := by
  suffices h : sortByDate l1 = sortByDate l2 by
    rw [buildAllValues, buildAllValues, h]
  have hp1 : List.Perm (sortByDate l1) l1 := List.mergeSort_perm l1 _
  have hp2 : List.Perm (sortByDate l2) l2 := List.mergeSort_perm l2 _
  have hperm12 : List.Perm (sortByDate l1) (sortByDate l2) :=
    hp1.trans (hperm.trans hp2.symm)
  have hkeys2 : (l2.map (fun p => p.1.utcSec)).Nodup :=
    ((hperm.map _).nodup_iff).mp hkeys
  have hstrict : ∀ (l : List (AwareDT × Grid)),
      (l.map (fun p => p.1.utcSec)).Nodup →
      List.Pairwise (fun p q : AwareDT × Grid => p.1.utcSec < q.1.utcSec)
        (sortByDate l) := by
    intro l hl
    have hsorted := sortByDate_sorted l
    have hnd : ((sortByDate l).map (fun p => p.1.utcSec)).Nodup :=
      (((List.mergeSort_perm l _).map _).nodup_iff).mpr hl
    unfold List.Nodup at hnd
    have hne : List.Pairwise
        (fun p q : AwareDT × Grid => p.1.utcSec ≠ q.1.utcSec) (sortByDate l) :=
      List.pairwise_map.mp hnd
    exact (hsorted.and hne).imp (fun h => lt_of_le_of_ne h.1 h.2)
  haveI : IsAntisymm (AwareDT × Grid) (fun p q => p.1.utcSec < q.1.utcSec) :=
    ⟨fun a b h1 h2 => absurd h2 (not_lt.mpr (le_of_lt h1))⟩
  exact List.eq_of_perm_of_sorted hperm12 (hstrict l1 hkeys) (hstrict l2 hkeys2)

/-- Witness for C7: two concrete two-entry accumulators, one the reverse
of the other, produce the same archive rows. -/
theorem writer_order_independent_witness :
    List.Perm
      [(easternLocalize 2024 6 4 22 0 0, ([["B"]] : Grid)),
       (easternLocalize 2024 6 3 22 0 0, ([["A"]] : Grid))]
      [(easternLocalize 2024 6 3 22 0 0, ([["A"]] : Grid)),
       (easternLocalize 2024 6 4 22 0 0, ([["B"]] : Grid))] ∧
    buildAllValues "now"
      [(easternLocalize 2024 6 4 22 0 0, ([["B"]] : Grid)),
       (easternLocalize 2024 6 3 22 0 0, ([["A"]] : Grid))] =
    buildAllValues "now"
      [(easternLocalize 2024 6 3 22 0 0, ([["A"]] : Grid)),
       (easternLocalize 2024 6 4 22 0 0, ([["B"]] : Grid))] := by
  have hperm := List.Perm.swap
    (easternLocalize 2024 6 3 22 0 0, ([["A"]] : Grid))
    (easternLocalize 2024 6 4 22 0 0, ([["B"]] : Grid)) []
  exact ⟨hperm, writer_order_independent "now" _ _ hperm (by decide)⟩

/-- C9: a transport error during the snapshot read yields the empty grid
rather than an exception, and a failing destination clear is swallowed:
the trace after the clear event is identical to a successful clear's, so
the bulk update is still attempted with the same payload; neither error
aborts the run. -/
theorem errors_do_not_abort
    (api : String → String → Except String (Option Grid)) (sid rng e : String)
    (hapi : api sid rng = Except.error e)
    (generatedAt eclear : String) (u : Except String Unit)
    (all_data : List (AwareDT × Grid)) :
    read_sheet_data api sid rng = [] ∧
    (append_to_destination generatedAt (Except.error eclear) u all_data).drop 1 =
      (append_to_destination generatedAt (Except.ok ()) u all_data).drop 1 ∧
    (ApiEvent.updated (buildAllValues generatedAt all_data) ∈
        append_to_destination generatedAt (Except.error eclear) u all_data ∨
      ∃ e2, ApiEvent.updateFailed e2 ∈
        append_to_destination generatedAt (Except.error eclear) u all_data) := by
  refine ⟨?_, ?_, ?_⟩
  · simp [read_sheet_data, hapi]
  · cases u <;> rfl
  · cases u with
    | error e2 => exact Or.inr ⟨e2, by simp [append_to_destination]⟩
    | ok _ => exact Or.inl (by simp [append_to_destination])

/-- Witness for C9: a read against a failing transport, and a run whose
clear is denied but whose update goes through. -/
theorem errors_do_not_abort_witness :
    read_sheet_data (fun _ _ => Except.error "net down") "sheet" "Edit!A:L" = [] ∧
    (append_to_destination "now" (Except.error "denied") (Except.ok ()) []).drop 1 =
      (append_to_destination "now" (Except.ok ()) (Except.ok ()) []).drop 1 ∧
    (ApiEvent.updated (buildAllValues "now" []) ∈
        append_to_destination "now" (Except.error "denied") (Except.ok ()) [] ∨
      ∃ e2, ApiEvent.updateFailed e2 ∈
        append_to_destination "now" (Except.error "denied") (Except.ok ()) []) :=
  errors_do_not_abort (fun _ _ => Except.error "net down") "sheet" "Edit!A:L"
    "net down" rfl "now" "denied" (Except.ok ()) []

lemma dateSection_length (p : AwareDT × Grid) :
    (dateSection p).length = 5 + max 1 p.2.length := by
  rw [dateSection]
  cases hp : p.2 <;> simp [hp]
  omega

lemma dateSection_split (p : AwareDT × Grid) (hne : p.2 ≠ []) :
    dateSection p = [["📅 " ++ fmtDateHeader p.1], [""]] ++ p.2 ++
      [[""], [String.mk (List.replicate 50 '-')], [""]] := by
  rw [dateSection]
  have hb : p.2.isEmpty = false := by
    cases hp : p.2
    · exact absurd hp hne
    · rfl
  rw [hb]
  simp

/-- C10: the archive row matrix is the 4 banner rows followed by, for
each date in ascending instant order, a section of exactly
5 + max 1 |rows| rows (header, blank, the snapshot rows verbatim or one
no-data row, blank, separator, blank); the total row count is 4 plus the
sum of the section lengths; each nonempty snapshot's rows appear verbatim
and contiguously in the output; and the formatted sequence holds exactly
the accumulator's pairs. -/
theorem writer_layout (generatedAt : String) (all_data : List (AwareDT × Grid)) :
    buildAllValues generatedAt all_data =
      bannerRows generatedAt ++ (sortByDate all_data).flatMap dateSection ∧
    (bannerRows generatedAt).length = 4 ∧
    (∀ p, (dateSection p).length = 5 + max 1 p.2.length) ∧
    (buildAllValues generatedAt all_data).length =
      4 + ((sortByDate all_data).map (fun p => 5 + max 1 p.2.length)).sum ∧
    List.Pairwise (fun p q : AwareDT × Grid => p.1.utcSec ≤ q.1.utcSec)
      (sortByDate all_data) ∧
    List.Perm (sortByDate all_data) all_data ∧
    ∀ p ∈ sortByDate all_data, p.2 ≠ [] →
      ∃ pre post, buildAllValues generatedAt all_data = pre ++ p.2 ++ post := by
  refine ⟨rfl, rfl, dateSection_length, ?_, sortByDate_sorted all_data,
    List.mergeSort_perm all_data _, ?_⟩
  · rw [buildAllValues, List.length_append]
    have hb : (bannerRows generatedAt).length = 4 := rfl
    rw [hb]
    simp only [List.flatMap, List.length_flatten, List.map_map]
    have hfun : (List.length ∘ dateSection) =
        (fun p : AwareDT × Grid => 5 + max 1 p.2.length) :=
      funext dateSection_length
    rw [hfun]
  · intro p hp hne
    obtain ⟨s, t, hst⟩ := List.append_of_mem hp
    refine ⟨bannerRows generatedAt ++ s.flatMap dateSection ++
        [["📅 " ++ fmtDateHeader p.1], [""]],
      [[""], [String.mk (List.replicate 50 '-')], [""]] ++ t.flatMap dateSection, ?_⟩
    rw [buildAllValues, hst]
    simp only [List.flatMap_append, List.flatMap_cons, dateSection_split p hne,
      List.append_assoc]

/-- Witness for C4 at year 2024: the generator equals its specification
and Monday June 3 at 10pm Eastern is among the generated instants. -/
theorem dateGen_spec_witness :
    get_weeknight_dates 2024 = specWeeknights 2024 ∧
    easternLocalize 2024 6 3 22 0 0 ∈ get_weeknight_dates 2024 := by
  have h := dateGen_spec 2024
  exact ⟨h.1, h.2.2.2 6 3 ⟨by omega, Or.inl ⟨rfl, by omega⟩⟩ (by decide)⟩

/-- Witness for C10 at a one-date accumulator holding one snapshot row. -/
theorem writer_layout_witness :
    buildAllValues "now" [(easternLocalize 2024 6 3 22 0 0, ([["A"]] : Grid))] =
      bannerRows "now" ++
        (sortByDate [(easternLocalize 2024 6 3 22 0 0, ([["A"]] : Grid))]).flatMap
          dateSection ∧
    (bannerRows "now").length = 4 ∧
    (∀ p, (dateSection p).length = 5 + max 1 p.2.length) ∧
    (buildAllValues "now" [(easternLocalize 2024 6 3 22 0 0, ([["A"]] : Grid))]).length =
      4 + ((sortByDate [(easternLocalize 2024 6 3 22 0 0, ([["A"]] : Grid))]).map
        (fun p => 5 + max 1 p.2.length)).sum ∧
    List.Pairwise (fun p q : AwareDT × Grid => p.1.utcSec ≤ q.1.utcSec)
      (sortByDate [(easternLocalize 2024 6 3 22 0 0, ([["A"]] : Grid))]) ∧
    List.Perm (sortByDate [(easternLocalize 2024 6 3 22 0 0, ([["A"]] : Grid))])
      [(easternLocalize 2024 6 3 22 0 0, ([["A"]] : Grid))] ∧
    ∀ p ∈ sortByDate [(easternLocalize 2024 6 3 22 0 0, ([["A"]] : Grid))],
      p.2 ≠ [] → ∃ pre post,
        buildAllValues "now" [(easternLocalize 2024 6 3 22 0 0, ([["A"]] : Grid))] =
          pre ++ p.2 ++ post :=
  writer_layout "now" [(easternLocalize 2024 6 3 22 0 0, ([["A"]] : Grid))]
